import Mathlib

/-!
Verification development for the website-domain-scraper repository.

The repository has two variants of the same crawler:
  src/scraper.py         sequential crawl with a FIFO list frontier and a
                         Counter of external domains;
  src/config_scraper.py  threaded crawl over global shared structures
                         (url_queue, visited_urls, external_domains,
                         page_count) guarded by locks.

This file gives a shallow embedding of both variants and proves the
testable properties of the specification against them.  The network and
the HTML parser are external capabilities; they are modelled as function
parameters (fetchPage : String to String returning the body, with the
empty string standing for any failure exactly as fetch_page does, and
extractLinks : html to base url to absolute link list, exactly the
observable behaviour of extract_links).
-/

/-! ## URL parsing model (urllib.parse scheme and netloc extraction)

get_domain in both source files is urlparse(url).netloc.  We model the
scheme and netloc components of CPython urlsplit: the scheme is the text
before the first colon when it is nonempty, starts with an ASCII letter
and consists of letters, digits, plus, minus and dot; the netloc is
present only when the remainder starts with two slashes, and extends to
the first slash, question mark or hash.  The bracket validation urlsplit
performs for IPv6 hosts is omitted; no URL in this development contains
brackets. -/

def schemeChar (c : Char) : Bool :=
  c.isAlpha || c.isDigit || c = '+' || c = '-' || c = '.'

def schemeSplit (cs : List Char) : List Char × List Char :=
  match cs.findIdx? (· = ':') with
  | none => ([], cs)
  | some i =>
    if 0 < i ∧ (cs.headD ' ').isAlpha ∧ (cs.take i).all schemeChar then
      ((cs.take i).map Char.toLower, cs.drop (i + 1))
    else ([], cs)

def netlocOf : List Char → List Char
  | '/' :: '/' :: rest => rest.takeWhile (fun c => !(c = '/' || c = '?' || c = '#'))
  | _ => []

/-- get_domain (identical in scraper.py and config_scraper.py):
returns urlparse(url).netloc. -/
def get_domain (url : String) : String :=
  String.mk (netlocOf (schemeSplit url.toList).2)

/-- urlparse(url).scheme, used by the seed validation in main. -/
def urlScheme (url : String) : String :=
  String.mk (schemeSplit url.toList).1

/-- is_internal_link (identical in both files): true when the domain of
the url equals the base domain or is empty. -/
def is_internal_link (url : String) (base_domain : String) : Bool :=
  get_domain url == base_domain || get_domain url == ""

/-- The seed validation performed by main in both files:
urlparse the start url and refuse the run when the scheme or the netloc
is empty. -/
def validateSeed (url : String) : Bool :=
  !(urlScheme url == "") && !(get_domain url == "")

/-! ## Sequential crawler (src/scraper.py)

crawl_website keeps a visited set, a FIFO list to_visit, a Counter of
external domains and a page counter.  The state below carries two extra
observation fields that change nothing of the behaviour: fetchLog is the
sequence of URLs passed to fetch_page, in order, and enqueueLog is the
sequence of URLs admitted to the frontier, in order of first admission
(the seed counts as admitted at start). -/

structure CrawlState where
  visited : List String
  toVisit : List String
  extDoms : List (String × Nat)
  pageCount : Nat
  fetchLog : List String
  enqueueLog : List String
deriving DecidableEq, Repr

/-- Counter increment: external_domains[d] += 1 on a collections.Counter,
which bumps an existing key in place and appends a missing key with
count 1 (Counter preserves insertion order). -/
def counterIncr (m : List (String × Nat)) (d : String) : List (String × Nat) :=
  if m.any (fun p => p.1 == d) then
    m.map (fun p => if p.1 == d then (p.1, p.2 + 1) else p)
  else
    m ++ [(d, 1)]

/-- One iteration of the link loop in crawl_website (scraper.py lines
100 to 109): an internal link is appended to to_visit when it is in
neither visited_urls nor to_visit; an external link with a nonempty
domain bumps the Counter. -/
def processLink (base : String) (s : CrawlState) (link : String) : CrawlState :=
  if is_internal_link link base then
    if link ∉ s.visited ∧ link ∉ s.toVisit then
      { s with toVisit := s.toVisit ++ [link], enqueueLog := s.enqueueLog ++ [link] }
    else s
  else
    let d := get_domain link
    if d = "" then s else { s with extDoms := counterIncr s.extDoms d }

def processLinks (base : String) (s : CrawlState) (links : List String) : CrawlState :=
  links.foldl (processLink base) s

/-- The while loop of crawl_website (scraper.py lines 80 to 112):
while to_visit and page_count < max_pages, pop the head, skip it when
already visited, otherwise mark it visited, count it, fetch it (the call
is recorded in fetchLog), and when the body is nonempty process every
extracted link. -/
def crawlLoop (f : String → String) (e : String → String → List String)
    (base : String) (maxPages : Nat) (s : CrawlState) : CrawlState :=
  match hv : s.toVisit with
  | [] => s
  | current :: rest =>
    if hb : s.pageCount < maxPages then
      if current ∈ s.visited then
        crawlLoop f e base maxPages { s with toVisit := rest }
      else
        let s1 : CrawlState :=
          { visited := current :: s.visited, toVisit := rest, extDoms := s.extDoms,
            pageCount := s.pageCount + 1, fetchLog := s.fetchLog ++ [current],
            enqueueLog := s.enqueueLog }
        let html := f current
        if html = "" then
          crawlLoop f e base maxPages s1
        else
          crawlLoop f e base maxPages (processLinks base s1 (e html current))
    else s
termination_by (maxPages - s.pageCount, s.toVisit.length)
decreasing_by
  · apply Prod.Lex.right
    simp [hv]
  · apply Prod.Lex.left
    omega
  · apply Prod.Lex.left
    have hp1 : ∀ (l : String) (st : CrawlState), (processLink base st l).pageCount = st.pageCount := by
      intro l st
      simp only [processLink]
      split_ifs <;> rfl
    have hp : ∀ (L : List String) (st : CrawlState),
        (processLinks base st L).pageCount = st.pageCount := by
      intro L
      induction L with
      | nil => intro st; rfl
      | cons a t ih =>
        intro st
        simp only [processLinks, List.foldl_cons]
        show (processLinks base (processLink base st a) t).pageCount = st.pageCount
        rw [ih, hp1]
    rw [hp]
    show maxPages - (s.pageCount + 1) < maxPages - s.pageCount
    omega

/-- crawl_website (scraper.py lines 61 to 115): start from an empty
visited set, the frontier holding only the seed, an empty Counter and a
zero page count, and run the loop.  The full final state is returned so
that the observation fields can be inspected; the Python function
returns the extDoms component. -/
def crawl_website (f : String → String) (e : String → String → List String)
    (start_url : String) (max_pages : Nat) : CrawlState :=
  crawlLoop f e (get_domain start_url) max_pages
    { visited := [], toVisit := [start_url], extDoms := [], pageCount := 0,
      fetchLog := [], enqueueLog := [start_url] }

/-- The sort in save_domains_to_file (scraper.py line 122):
sorted(domain_counts.items(), key = fun x => (-x[1], x[0])), that is
ascending in the key (negated count, domain): larger counts first, ties
by ascending domain. -/
def domainsLe (a b : String × Nat) : Bool :=
  b.2 < a.2 || (a.2 == b.2 && a.1 ≤ b.1)

def sortDomains (m : List (String × Nat)) : List (String × Nat) :=
  m.mergeSort domainsLe

/-! ## Invariants of the sequential crawler -/

structure GState where
  queue : List String
  visited : List String
  extDoms : List String
  pageCount : Nat
  fetchLog : List String
deriving DecidableEq, Repr

/-- Python set.add: insert when absent. -/
def setInsert (l : List String) (d : String) : List String :=
  if d ∈ l then l else d :: l

/-- The body of the link loop in worker (config_scraper.py lines 126 to
137): an internal link is enqueued when not in visited_urls (the queue
itself is not consulted); an external link with nonempty domain is added
to the external_domains set. -/
def workerHandleLink (base : String) (g : GState) (link : String) : GState :=
  if is_internal_link link base then
    if link ∈ g.visited then g else { g with queue := g.queue ++ [link] }
  else
    let d := get_domain link
    if d = "" then g else { g with extDoms := setInsert g.extDoms d }

/-- Worker program counter.  checkBudget is the top of the while loop
(the page_count_lock region of lines 88 to 90); wantUrl is about to call
url_queue.get; gotUrl holds a dequeued URL before the visited_urls_lock
region of lines 101 to 105; claimed holds a URL that was just added to
visited_urls, before the page_count_lock region of lines 108 to 114;
counted holds a URL whose page_count slot was granted, before the
fetch_page call; processing walks the extracted link list; halted has
left the loop. -/
inductive WPC where
  | checkBudget : WPC
  | wantUrl : WPC
  | gotUrl : String → WPC
  | claimed : String → WPC
  | counted : String → WPC
  | processing : String → List String → WPC
  | halted : WPC
deriving DecidableEq, Repr

/-- One atomic transition of a single worker (config_scraper.py lines 85
to 145).  Fetching is modelled at the moment of the fetch_page call: the
URL is appended to fetchLog and the body f u decides the branch. -/
inductive WStep (f : String → String) (e : String → String → List String)
    (base : String) (maxPages : Nat) : GState → WPC → GState → WPC → Prop where
  | budgetStop (g : GState) : maxPages ≤ g.pageCount →
      WStep f e base maxPages g .checkBudget g .halted
  | budgetGo (g : GState) : g.pageCount < maxPages →
      WStep f e base maxPages g .checkBudget g .wantUrl
  | queueEmpty (g : GState) : g.queue = [] →
      WStep f e base maxPages g .wantUrl g .checkBudget
  | dequeue (g : GState) (u : String) (rest : List String) : g.queue = u :: rest →
      WStep f e base maxPages g .wantUrl { g with queue := rest } (.gotUrl u)
  | skipVisited (g : GState) (u : String) : u ∈ g.visited →
      WStep f e base maxPages g (.gotUrl u) g .checkBudget
  | markVisited (g : GState) (u : String) : u ∉ g.visited →
      WStep f e base maxPages g (.gotUrl u) { g with visited := u :: g.visited } (.claimed u)
  | overBudget (g : GState) (u : String) : maxPages < g.pageCount + 1 →
      WStep f e base maxPages g (.claimed u) { g with pageCount := g.pageCount + 1 } .halted
  | withinBudget (g : GState) (u : String) : g.pageCount + 1 ≤ maxPages →
      WStep f e base maxPages g (.claimed u) { g with pageCount := g.pageCount + 1 } (.counted u)
  | fetchFail (g : GState) (u : String) : f u = "" →
      WStep f e base maxPages g (.counted u) { g with fetchLog := g.fetchLog ++ [u] } .checkBudget
  | fetchOk (g : GState) (u : String) : f u ≠ "" →
      WStep f e base maxPages g (.counted u) { g with fetchLog := g.fetchLog ++ [u] }
        (.processing u (e (f u) u))
  | linkStep (g : GState) (u l : String) (ls : List String) :
      WStep f e base maxPages g (.processing u (l :: ls)) (workerHandleLink base g l)
        (.processing u ls)
  | linksDone (g : GState) (u : String) :
      WStep f e base maxPages g (.processing u []) g .checkBudget

/-- A pool configuration: the shared state and one program counter per
worker thread. -/
structure Cfg where
  g : GState
  pcs : List WPC
deriving DecidableEq, Repr

/-- One step of the pool: some worker takes one atomic step. -/
inductive SysStep (f : String → String) (e : String → String → List String)
    (base : String) (maxPages : Nat) : Cfg → Cfg → Prop where
  | mk (g g' : GState) (p p' : WPC) (l1 l2 : List WPC) :
      WStep f e base maxPages g p g' p' →
      SysStep f e base maxPages ⟨g, l1 ++ p :: l2⟩ ⟨g', l1 ++ p' :: l2⟩

/-- The shared state as crawl_website (config_scraper.py lines 160 to
183) hands it to a fresh pool of n workers: empty visited set, empty
external set, zero page count, the seed enqueued, every worker at the
top of its loop.  The queue field of the pre-existing global state is
NOT cleared by the reset block of lines 162 to 168; initCfg is the state
of a run whose global queue was empty beforehand (a first run). -/
def initCfg (start_url : String) (n : Nat) : Cfg :=
  ⟨⟨[start_url], [], [], 0, []⟩, List.replicate n .checkBudget⟩

/-- The reset-and-seed prelude of crawl_website (config_scraper.py lines
160 to 175) as a function of the pre-existing global state: page_count,
visited_urls and external_domains are reset, the seed is enqueued, and
url_queue keeps whatever it already held. -/
def crawlInitGlobals (g : GState) (start_url : String) : GState :=
  { queue := g.queue ++ [start_url], visited := [], extDoms := [], pageCount := 0,
    fetchLog := [] }

/-- Configurations reachable during one crawl invocation with pool size
n. -/
inductive Reach (f : String → String) (e : String → String → List String)
    (base : String) (maxPages : Nat) (start_url : String) (n : Nat) : Cfg → Prop where
  | init : Reach f e base maxPages start_url n (initCfg start_url n)
  | step (c c' : Cfg) : Reach f e base maxPages start_url n c →
      SysStep f e base maxPages c c' → Reach f e base maxPages start_url n c'

/-! ## Invariants of the threaded crawler -/

/-- A worker is pending on u when it has inserted u into visited_urls
but not yet called fetch_page on it. -/
def pendingB (u : String) : WPC → Bool
  | .claimed v => u == v
  | .counted v => u == v
  | _ => false

/-- A worker is counted when it owns a granted page_count slot whose
fetch has not started yet. -/
def isCountedB : WPC → Bool
  | .counted _ => true
  | _ => false

/-- The loop invariant of crawl_website.  enqueueLog splits as the fetch
log followed by the pending frontier; the admitted URLs are pairwise
distinct; the visited set holds exactly the fetched URLs; page_count
counts the fetch_page calls; every recorded external domain is nonempty
and differs from the base domain; and the Counter keys are distinct. -/
def SeqInv (base : String) (s : CrawlState) : Prop :=
  s.enqueueLog = s.fetchLog ++ s.toVisit ∧
  s.enqueueLog.Nodup ∧
  (∀ u, u ∈ s.visited ↔ u ∈ s.fetchLog) ∧
  s.fetchLog.length = s.pageCount ∧
  (∀ d ∈ s.extDoms.map Prod.fst, d ≠ "" ∧ d ≠ base) ∧
  (s.extDoms.map Prod.fst).Nodup

/-- The pool invariant: every fetched URL is visited; no URL is fetched
twice; a pending URL is visited and not yet fetched; at most one worker
is pending on any one URL; the fetches done plus the fetch slots granted
never exceed page_count nor max_pages; every recorded external domain is
nonempty and differs from the base domain. -/
def CInv (base : String) (maxPages : Nat) (g : GState) (pcs : List WPC) : Prop :=
  (∀ u ∈ g.fetchLog, u ∈ g.visited) ∧
  g.fetchLog.Nodup ∧
  (∀ p ∈ pcs, ∀ u, pendingB u p = true → u ∈ g.visited ∧ u ∉ g.fetchLog) ∧
  (∀ u, pcs.countP (pendingB u) ≤ 1) ∧
  g.fetchLog.length + pcs.countP isCountedB ≤ min g.pageCount maxPages ∧
  (∀ d ∈ g.extDoms, d ≠ "" ∧ d ≠ base)

/-- main in both files validates the seed with urlparse before anything
else runs: when the scheme or the netloc is empty it logs an error and
returns without crawling (scraper.py lines 141 to 148,
config_scraper.py lines 248 to 258).  none is the refused run. -/
def mainModel (f : String → String) (e : String → String → List String)
    (start_url : String) (max_pages : Nat) : Option CrawlState :=
  if validateSeed start_url then some (crawl_website f e start_url max_pages) else none

/-! ## A small concrete website used to instantiate the theorems

One page at https://a.test/ holding one internal link and two links to
the external domain b.test; every other fetch fails. -/

def demoFetch : String → String := fun u =>
  if u = "https://a.test/" then "<html1>" else ""

def demoExtract : String → String → List String := fun h _ =>
  if h = "<html1>" then
    ["https://a.test/p2", "https://b.test/x", "https://b.test/y"]
  else []

/-- The final configuration of a one-worker, one-page-budget crawl of
the demo site: the seed was fetched, the internal link stayed queued
because the budget was exhausted, and b.test was recorded. -/
def demoFinal : Cfg :=
  ⟨⟨["https://a.test/p2"], ["https://a.test/"], ["b.test"], 1, ["https://a.test/"]⟩,
   [WPC.halted]⟩

/-! ## Library of facts about the two crawlers -/

theorem processLink_pageCount (base : String) (s : CrawlState) (l : String) :
    (processLink base s l).pageCount = s.pageCount := by
  simp only [processLink]
  split_ifs <;> rfl

theorem processLinks_pageCount (base : String) (links : List String) (s : CrawlState) :
    (processLinks base s links).pageCount = s.pageCount := by
  induction links generalizing s with
  | nil => rfl
  | cons l ls ih =>
    simp only [processLinks, List.foldl_cons] at *
    rw [ih, processLink_pageCount]

theorem not_internal_iff (l base : String) :
    is_internal_link l base = false ↔ get_domain l ≠ base ∧ get_domain l ≠ "" := by
  simp [is_internal_link, not_or]

theorem counterIncr_keys (m : List (String × Nat)) (d : String) :
    (counterIncr m d).map Prod.fst =
      if m.any (fun p => p.1 == d) then m.map Prod.fst else m.map Prod.fst ++ [d] := by
  unfold counterIncr
  split_ifs with hany
  · rw [List.map_map]
    apply List.map_congr_left
    intro p _
    by_cases hp : p.1 = d <;> simp [hp]
  · simp

/-! One-step equations for the crawl loop, one per branch of the source
loop body. -/

theorem crawlLoop_eq_nil (f : String → String) (e : String → String → List String)
    (base : String) (maxPages : Nat) (s : CrawlState) (hs : s.toVisit = []) :
    crawlLoop f e base maxPages s = s := by
  rw [crawlLoop]
  split
  · rfl
  · rename_i current rest hs'
    rw [hs] at hs'
    cases hs'

theorem crawlLoop_eq_stop (f : String → String) (e : String → String → List String)
    (base : String) (maxPages : Nat) (s : CrawlState) (current : String) (rest : List String)
    (hs : s.toVisit = current :: rest) (hb : ¬ s.pageCount < maxPages) :
    crawlLoop f e base maxPages s = s := by
  rw [crawlLoop]
  split
  · rfl
  · rw [dif_neg hb]

theorem crawlLoop_eq_skip (f : String → String) (e : String → String → List String)
    (base : String) (maxPages : Nat) (s : CrawlState) (current : String) (rest : List String)
    (hs : s.toVisit = current :: rest) (hb : s.pageCount < maxPages)
    (hv : current ∈ s.visited) :
    crawlLoop f e base maxPages s =
      crawlLoop f e base maxPages { s with toVisit := rest } := by
  conv_lhs => rw [crawlLoop]
  split
  · rename_i hs'
    rw [hs] at hs'
    cases hs'
  · rename_i current' rest' hs'
    rw [hs] at hs'
    cases hs'
    rw [dif_pos hb, if_pos hv]

theorem crawlLoop_eq_fail (f : String → String) (e : String → String → List String)
    (base : String) (maxPages : Nat) (s : CrawlState) (current : String) (rest : List String)
    (hs : s.toVisit = current :: rest) (hb : s.pageCount < maxPages)
    (hv : current ∉ s.visited) (hf : f current = "") :
    crawlLoop f e base maxPages s =
      crawlLoop f e base maxPages
        { visited := current :: s.visited, toVisit := rest, extDoms := s.extDoms,
          pageCount := s.pageCount + 1, fetchLog := s.fetchLog ++ [current],
          enqueueLog := s.enqueueLog } := by
  conv_lhs => rw [crawlLoop]
  split
  · rename_i hs'
    rw [hs] at hs'
    cases hs'
  · rename_i current' rest' hs'
    rw [hs] at hs'
    cases hs'
    rw [dif_pos hb, if_neg hv]
    show (if f current = "" then _ else _) = _
    rw [if_pos hf]

theorem crawlLoop_eq_go (f : String → String) (e : String → String → List String)
    (base : String) (maxPages : Nat) (s : CrawlState) (current : String) (rest : List String)
    (hs : s.toVisit = current :: rest) (hb : s.pageCount < maxPages)
    (hv : current ∉ s.visited) (hf : f current ≠ "") :
    crawlLoop f e base maxPages s =
      crawlLoop f e base maxPages
        (processLinks base
          { visited := current :: s.visited, toVisit := rest, extDoms := s.extDoms,
            pageCount := s.pageCount + 1, fetchLog := s.fetchLog ++ [current],
            enqueueLog := s.enqueueLog }
          (e (f current) current)) := by
  conv_lhs => rw [crawlLoop]
  split
  · rename_i hs'
    rw [hs] at hs'
    cases hs'
  · rename_i current' rest' hs'
    rw [hs] at hs'
    cases hs'
    rw [dif_pos hb, if_neg hv]
    show (if f current = "" then _ else _) = _
    rw [if_neg hf]

theorem processLink_visited (base : String) (s : CrawlState) (l : String) :
    (processLink base s l).visited = s.visited := by
  simp only [processLink]
  split_ifs <;> rfl

theorem processLink_fetchLog (base : String) (s : CrawlState) (l : String) :
    (processLink base s l).fetchLog = s.fetchLog := by
  simp only [processLink]
  split_ifs <;> rfl

theorem processLinks_visited (base : String) (links : List String) (s : CrawlState) :
    (processLinks base s links).visited = s.visited := by
  induction links generalizing s with
  | nil => rfl
  | cons l ls ih =>
    simp only [processLinks, List.foldl_cons] at *
    rw [ih, processLink_visited]

theorem processLinks_fetchLog (base : String) (links : List String) (s : CrawlState) :
    (processLinks base s links).fetchLog = s.fetchLog := by
  induction links generalizing s with
  | nil => rfl
  | cons l ls ih =>
    simp only [processLinks, List.foldl_cons] at *
    rw [ih, processLink_fetchLog]

theorem processLink_SeqInv (base : String) (s : CrawlState) (l : String)
    (h : SeqInv base s) : SeqInv base (processLink base s l) := by
  obtain ⟨he, hn, hvis, hc, hd, hdn⟩ := h
  unfold processLink
  by_cases hint : is_internal_link l base = true
  · rw [if_pos hint]
    by_cases hadm : l ∉ s.visited ∧ l ∉ s.toVisit
    · rw [if_pos hadm]
      refine ⟨?_, ?_, hvis, hc, hd, hdn⟩
      · show s.enqueueLog ++ [l] = s.fetchLog ++ (s.toVisit ++ [l])
        rw [he, List.append_assoc]
      · show (s.enqueueLog ++ [l]).Nodup
        rw [List.nodup_append]
        refine ⟨hn, List.nodup_singleton l, ?_⟩
        intro a ha hb
        simp only [List.mem_singleton] at hb
        subst hb
        rw [he, List.mem_append] at ha
        rcases ha with ha | ha
        · exact hadm.1 ((hvis a).2 ha)
        · exact hadm.2 ha
    · rw [if_neg hadm]
      exact ⟨he, hn, hvis, hc, hd, hdn⟩
  · rw [if_neg hint]
    have hfalse : is_internal_link l base = false := by
      simpa using hint
    have hni := (not_internal_iff l base).1 hfalse
    show SeqInv base
      (if get_domain l = "" then s
       else { s with extDoms := counterIncr s.extDoms (get_domain l) })
    by_cases hemp : get_domain l = ""
    · rw [if_pos hemp]
      exact ⟨he, hn, hvis, hc, hd, hdn⟩
    · rw [if_neg hemp]
      refine ⟨he, hn, hvis, hc, ?_, ?_⟩
      · intro d hdm
        show d ≠ "" ∧ d ≠ base
        rw [counterIncr_keys] at hdm
        split_ifs at hdm with hany
        · exact hd d hdm
        · rcases List.mem_append.1 hdm with hold | hnew
          · exact hd d hold
          · simp only [List.mem_singleton] at hnew
            subst hnew
            exact ⟨hni.2, hni.1⟩
      · show ((counterIncr s.extDoms (get_domain l)).map Prod.fst).Nodup
        rw [counterIncr_keys]
        split_ifs with hany
        · exact hdn
        · rw [List.nodup_append]
          refine ⟨hdn, List.nodup_singleton _, ?_⟩
          intro a ha hb
          simp only [List.mem_singleton] at hb
          subst hb
          rw [Bool.not_eq_true, List.any_eq_false] at hany
          rcases List.mem_map.1 ha with ⟨p, hp, hpe⟩
          exact hany p hp (by simp [hpe])

theorem processLinks_SeqInv (base : String) (links : List String) (s : CrawlState)
    (h : SeqInv base s) : SeqInv base (processLinks base s links) := by
  induction links generalizing s with
  | nil => exact h
  | cons l ls ih =>
    simp only [processLinks, List.foldl_cons] at *
    exact ih _ (processLink_SeqInv base s l h)

theorem crawlLoop_SeqInv (f : String → String) (e : String → String → List String)
    (base : String) (maxPages : Nat) (s : CrawlState)
    (h : SeqInv base s) : SeqInv base (crawlLoop f e base maxPages s) := by
  induction s using crawlLoop.induct f e base maxPages with
  | case1 x hs =>
    rw [crawlLoop_eq_nil f e base maxPages x hs]
    exact h
  | case2 x current rest hs hb hvis ih =>
    exfalso
    obtain ⟨he, hn, hv, _⟩ := h
    have hf : current ∈ x.fetchLog := (hv current).1 hvis
    rw [he, hs] at hn
    rcases List.nodup_append.1 hn with ⟨_, _, hdisj⟩
    exact hdisj hf (by simp)
  | case3 x current rest hs hb hvis s1 html hhtml ih =>
    rw [crawlLoop_eq_fail f e base maxPages x current rest hs hb hvis hhtml]
    apply ih
    obtain ⟨he, hn, hv, hc, hd, hdn⟩ := h
    refine ⟨?_, hn, ?_, ?_, hd, hdn⟩
    · show x.enqueueLog = (x.fetchLog ++ [current]) ++ rest
      rw [he, hs, List.append_assoc, List.singleton_append]
    · intro u
      show u ∈ current :: x.visited ↔ u ∈ x.fetchLog ++ [current]
      simp only [List.mem_cons, List.mem_append, List.mem_singleton, hv u]
      tauto
    · show (x.fetchLog ++ [current]).length = x.pageCount + 1
      simp [hc]
  | case4 x current rest hs hb hvis s1 html hhtml ih =>
    rw [crawlLoop_eq_go f e base maxPages x current rest hs hb hvis hhtml]
    apply ih
    apply processLinks_SeqInv
    obtain ⟨he, hn, hv, hc, hd, hdn⟩ := h
    refine ⟨?_, hn, ?_, ?_, hd, hdn⟩
    · show x.enqueueLog = (x.fetchLog ++ [current]) ++ rest
      rw [he, hs, List.append_assoc, List.singleton_append]
    · intro u
      show u ∈ current :: x.visited ↔ u ∈ x.fetchLog ++ [current]
      simp only [List.mem_cons, List.mem_append, List.mem_singleton, hv u]
      tauto
    · show (x.fetchLog ++ [current]).length = x.pageCount + 1
      simp [hc]
  | case5 x current rest hs hb =>
    rw [crawlLoop_eq_stop f e base maxPages x current rest hs hb]
    exact h

theorem crawl_website_SeqInv (f : String → String) (e : String → String → List String)
    (u : String) (m : Nat) :
    SeqInv (get_domain u) (crawl_website f e u m) := by
  apply crawlLoop_SeqInv
  refine ⟨by simp, by simp, ?_, rfl, by simp, by simp⟩
  intro v
  simp

theorem crawlLoop_pageCount_le (f : String → String) (e : String → String → List String)
    (base : String) (maxPages : Nat) (s : CrawlState) :
    (crawlLoop f e base maxPages s).pageCount ≤ max s.pageCount maxPages := by
  induction s using crawlLoop.induct f e base maxPages with
  | case1 x hs =>
    rw [crawlLoop_eq_nil f e base maxPages x hs]
    exact le_max_left _ _
  | case2 x current rest hs hb hvis ih =>
    rw [crawlLoop_eq_skip f e base maxPages x current rest hs hb hvis]
    exact ih
  | case3 x current rest hs hb hvis s1 html hhtml ih =>
    rw [crawlLoop_eq_fail f e base maxPages x current rest hs hb hvis hhtml]
    refine le_trans ih (max_le ?_ (le_max_right _ _))
    show x.pageCount + 1 ≤ max x.pageCount maxPages
    exact le_max_of_le_right hb
  | case4 x current rest hs hb hvis s1 html hhtml ih =>
    rw [crawlLoop_eq_go f e base maxPages x current rest hs hb hvis hhtml]
    refine le_trans ih (max_le ?_ (le_max_right _ _))
    rw [processLinks_pageCount]
    show x.pageCount + 1 ≤ max x.pageCount maxPages
    exact le_max_of_le_right hb
  | case5 x current rest hs hb =>
    rw [crawlLoop_eq_stop f e base maxPages x current rest hs hb]
    exact le_max_left _ _

/-! ## Threaded crawler (src/config_scraper.py)

config_scraper.py shares four structures between worker threads: the
url_queue, the visited_urls set, the external_domains set and the
page_count counter, each guarded by its own lock (the queue is
internally synchronized).  We model the shared state as GState and each
worker as a small program counter; every lock-guarded region of the
worker body is one atomic transition of the WStep relation, and an
execution of the pool is any interleaving of such transitions (SysStep
picks one worker of the pool).  fetchLog again records the sequence of
fetch_page calls, across all workers. -/

theorem countP_mid (q : WPC → Bool) (l1 l2 : List WPC) (p : WPC) :
    (l1 ++ p :: l2).countP q = l1.countP q + l2.countP q + (if q p then 1 else 0) := by
  rw [List.countP_append, List.countP_cons]
  omega

theorem mem_mid {α : Type} (a : α) (l1 l2 : List α) (p : α) :
    a ∈ l1 ++ p :: l2 ↔ a ∈ l1 ∨ a = p ∨ a ∈ l2 := by
  simp

theorem workerHandleLink_visited (base : String) (g : GState) (l : String) :
    (workerHandleLink base g l).visited = g.visited := by
  simp only [workerHandleLink]
  split_ifs <;> rfl

theorem workerHandleLink_fetchLog (base : String) (g : GState) (l : String) :
    (workerHandleLink base g l).fetchLog = g.fetchLog := by
  simp only [workerHandleLink]
  split_ifs <;> rfl

theorem workerHandleLink_pageCount (base : String) (g : GState) (l : String) :
    (workerHandleLink base g l).pageCount = g.pageCount := by
  simp only [workerHandleLink]
  split_ifs <;> rfl

theorem workerHandleLink_extDoms (base : String) (g : GState) (l : String) :
    ∀ d ∈ (workerHandleLink base g l).extDoms, d ∈ g.extDoms ∨ (d ≠ "" ∧ d ≠ base) := by
  intro d hd
  unfold workerHandleLink at hd
  by_cases hint : is_internal_link l base = true
  · rw [if_pos hint] at hd
    split_ifs at hd <;> exact Or.inl hd
  · rw [if_neg hint] at hd
    have hni := (not_internal_iff l base).1 (by simpa using hint)
    show d ∈ g.extDoms ∨ (d ≠ "" ∧ d ≠ base)
    by_cases hemp : get_domain l = ""
    · simp only [hemp, if_pos] at hd
      exact Or.inl hd
    · simp only [if_neg hemp] at hd
      unfold setInsert at hd
      split_ifs at hd with hmem
      · exact Or.inl hd
      · rcases List.mem_cons.1 hd with rfl | hd
        · exact Or.inr ⟨hni.2, hni.1⟩
        · exact Or.inl hd

/-- A step that keeps the crawl-relevant shared fields and whose new
program counter is pending and counted exactly like the old one
preserves the invariant. -/
theorem CInv_swap (base : String) (maxPages : Nat) (g g' : GState)
    (l1 l2 : List WPC) (p p' : WPC)
    (hvis : g'.visited = g.visited) (hlog : g'.fetchLog = g.fetchLog)
    (hpc : g'.pageCount = g.pageCount) (hext : g'.extDoms = g.extDoms)
    (hpend : ∀ u, pendingB u p' = pendingB u p)
    (hcnt : isCountedB p' = isCountedB p)
    (h : CInv base maxPages g (l1 ++ p :: l2)) :
    CInv base maxPages g' (l1 ++ p' :: l2) := by
  obtain ⟨hA, hB, hC, hD, hE, hF⟩ := h
  refine ⟨?_, ?_, ?_, ?_, ?_, ?_⟩
  · intro u hu
    rw [hvis]
    exact hA u (hlog ▸ hu)
  · rw [hlog]
    exact hB
  · intro q hq u hu
    rw [hvis, hlog]
    rcases (mem_mid q l1 l2 p').1 hq with h1 | h1 | h1
    · exact hC q ((mem_mid q l1 l2 p).2 (Or.inl h1)) u hu
    · subst h1
      exact hC p ((mem_mid p l1 l2 p).2 (Or.inr (Or.inl rfl))) u (hpend u ▸ hu)
    · exact hC q ((mem_mid q l1 l2 p).2 (Or.inr (Or.inr h1))) u hu
  · intro u
    have hD2 := hD u
    rw [countP_mid] at hD2 ⊢
    rw [hpend u]
    exact hD2
  · rw [hlog, hpc, countP_mid, hcnt]
    rw [countP_mid] at hE
    exact hE
  · intro d hd
    exact hF d (hext ▸ hd)

theorem sysStep_CInv (f : String → String) (e : String → String → List String)
    (base : String) (maxPages : Nat) (c c' : Cfg)
    (hstep : SysStep f e base maxPages c c') (h : CInv base maxPages c.g c.pcs) :
    CInv base maxPages c'.g c'.pcs := by
  rcases hstep with ⟨g, g', p, p', l1, l2, hw⟩
  dsimp only at h ⊢
  cases hw with
  | budgetStop hb =>
    exact CInv_swap base maxPages g g l1 l2 WPC.checkBudget WPC.halted rfl rfl rfl rfl (fun u => rfl) rfl h
  | budgetGo hb =>
    exact CInv_swap base maxPages g g l1 l2 WPC.checkBudget WPC.wantUrl rfl rfl rfl rfl (fun u => rfl) rfl h
  | queueEmpty hq =>
    exact CInv_swap base maxPages g g l1 l2 WPC.wantUrl WPC.checkBudget rfl rfl rfl rfl (fun u => rfl) rfl h
  | dequeue u rest hq =>
    exact CInv_swap base maxPages g _ l1 l2 WPC.wantUrl (WPC.gotUrl u) rfl rfl rfl rfl (fun v => rfl) rfl h
  | skipVisited u hv =>
    exact CInv_swap base maxPages g g l1 l2 (WPC.gotUrl u) WPC.checkBudget rfl rfl rfl rfl (fun v => rfl) rfl h
  | markVisited u hv =>
    obtain ⟨hA, hB, hC, hD, hE, hF⟩ := h
    refine ⟨?_, hB, ?_, ?_, ?_, hF⟩
    · intro x hx
      exact List.mem_cons_of_mem u (hA x hx)
    · intro q hq x hx
      rcases (mem_mid q l1 l2 _).1 hq with h1 | h1 | h1
      · obtain ⟨h2, h3⟩ := hC q ((mem_mid q l1 l2 _).2 (Or.inl h1)) x hx
        exact ⟨List.mem_cons_of_mem u h2, h3⟩
      · subst h1
        have hxu : x = u := by
          simpa [pendingB] using hx
        subst hxu
        refine ⟨List.mem_cons_self _ _, ?_⟩
        intro hxf
        exact hv (hA x hxf)
      · obtain ⟨h2, h3⟩ := hC q ((mem_mid q l1 l2 _).2 (Or.inr (Or.inr h1))) x hx
        exact ⟨List.mem_cons_of_mem u h2, h3⟩
    · intro x
      have hD2 := hD x
      rw [countP_mid] at hD2 ⊢
      by_cases hxu : x = u
      · subst hxu
        have hz1 : l1.countP (pendingB x) = 0 := by
          rw [List.countP_eq_zero]
          intro q hq hpq
          exact hv ((hC q ((mem_mid q l1 l2 _).2 (Or.inl hq)) x hpq).1)
        have hz2 : l2.countP (pendingB x) = 0 := by
          rw [List.countP_eq_zero]
          intro q hq hpq
          exact hv ((hC q ((mem_mid q l1 l2 _).2 (Or.inr (Or.inr hq))) x hpq).1)
        simp [hz1, hz2, pendingB]
      · have hfalse : pendingB x (WPC.claimed u) = false := by
          simp [pendingB, hxu]
        have hfalse2 : pendingB x (WPC.gotUrl u) = false := by
          simp [pendingB]
        rw [hfalse]
        rw [hfalse2] at hD2
        exact hD2
    · have hE2 := hE
      rw [countP_mid] at hE2 ⊢
      simp [isCountedB] at hE2 ⊢
      omega
  | overBudget u hb =>
    obtain ⟨hA, hB, hC, hD, hE, hF⟩ := h
    refine ⟨hA, hB, ?_, ?_, ?_, hF⟩
    · intro q hq x hx
      rcases (mem_mid q l1 l2 _).1 hq with h1 | h1 | h1
      · exact hC q ((mem_mid q l1 l2 _).2 (Or.inl h1)) x hx
      · subst h1
        simp [pendingB] at hx
      · exact hC q ((mem_mid q l1 l2 _).2 (Or.inr (Or.inr h1))) x hx
    · intro x
      have hD2 := hD x
      rw [countP_mid] at hD2 ⊢
      simp [pendingB] at hD2 ⊢
      omega
    · have hE2 := hE
      rw [countP_mid] at hE2 ⊢
      simp [isCountedB] at hE2 ⊢
      omega
  | withinBudget u hb =>
    obtain ⟨hA, hB, hC, hD, hE, hF⟩ := h
    refine ⟨hA, hB, ?_, ?_, ?_, hF⟩
    · intro q hq x hx
      rcases (mem_mid q l1 l2 _).1 hq with h1 | h1 | h1
      · exact hC q ((mem_mid q l1 l2 _).2 (Or.inl h1)) x hx
      · subst h1
        have hx2 : pendingB x (WPC.claimed u) = true := by
          simpa [pendingB] using hx
        exact hC _ ((mem_mid _ l1 l2 _).2 (Or.inr (Or.inl rfl))) x hx2
      · exact hC q ((mem_mid q l1 l2 _).2 (Or.inr (Or.inr h1))) x hx
    · intro x
      have hD2 := hD x
      rw [countP_mid] at hD2 ⊢
      have hsame : pendingB x (WPC.counted u) = pendingB x (WPC.claimed u) := by
        simp [pendingB]
      rw [hsame]
      exact hD2
    · have hE2 := hE
      rw [countP_mid] at hE2 ⊢
      simp [isCountedB] at hE2 ⊢
      omega
  | fetchFail u hf =>
    obtain ⟨hA, hB, hC, hD, hE, hF⟩ := h
    have hpu : u ∈ g.visited ∧ u ∉ g.fetchLog :=
      hC _ ((mem_mid _ l1 l2 _).2 (Or.inr (Or.inl rfl))) u (by simp [pendingB])
    refine ⟨?_, ?_, ?_, ?_, ?_, hF⟩
    · intro x hx
      rcases List.mem_append.1 hx with hx | hx
      · exact hA x hx
      · simp only [List.mem_singleton] at hx
        subst hx
        exact hpu.1
    · rw [List.nodup_append]
      refine ⟨hB, List.nodup_singleton u, ?_⟩
      intro a ha hb2
      simp only [List.mem_singleton] at hb2
      subst hb2
      exact hpu.2 ha
    · intro q hq x hx
      have hqmem : q ∈ l1 ∨ q ∈ l2 := by
        rcases (mem_mid q l1 l2 _).1 hq with h1 | h1 | h1
        · exact Or.inl h1
        · subst h1
          simp [pendingB] at hx
        · exact Or.inr h1
      have hold : x ∈ g.visited ∧ x ∉ g.fetchLog := by
        rcases hqmem with h1 | h1
        · exact hC q ((mem_mid q l1 l2 _).2 (Or.inl h1)) x hx
        · exact hC q ((mem_mid q l1 l2 _).2 (Or.inr (Or.inr h1))) x hx
      refine ⟨hold.1, ?_⟩
      intro hxm
      rcases List.mem_append.1 hxm with hxm | hxm
      · exact hold.2 hxm
      · simp only [List.mem_singleton] at hxm
        subst hxm
        have hD2 := hD x
        rw [countP_mid] at hD2
        have hone : (if pendingB x (WPC.counted x) then 1 else 0) = 1 := by
          simp [pendingB]
        rw [hone] at hD2
        have hq0 : l1.countP (pendingB x) = 0 ∧ l2.countP (pendingB x) = 0 := by
          omega
        rcases hqmem with h1 | h1
        · exact (List.countP_eq_zero.1 hq0.1 q h1) hx
        · exact (List.countP_eq_zero.1 hq0.2 q h1) hx
    · intro x
      have hD2 := hD x
      rw [countP_mid] at hD2 ⊢
      simp [pendingB] at hD2 ⊢
      omega
    · rw [countP_mid, List.length_append]
      have hE2 := hE
      rw [countP_mid] at hE2
      simp [isCountedB] at hE2 ⊢
      omega
  | fetchOk u hf =>
    obtain ⟨hA, hB, hC, hD, hE, hF⟩ := h
    have hpu : u ∈ g.visited ∧ u ∉ g.fetchLog :=
      hC _ ((mem_mid _ l1 l2 _).2 (Or.inr (Or.inl rfl))) u (by simp [pendingB])
    refine ⟨?_, ?_, ?_, ?_, ?_, hF⟩
    · intro x hx
      rcases List.mem_append.1 hx with hx | hx
      · exact hA x hx
      · simp only [List.mem_singleton] at hx
        subst hx
        exact hpu.1
    · rw [List.nodup_append]
      refine ⟨hB, List.nodup_singleton u, ?_⟩
      intro a ha hb2
      simp only [List.mem_singleton] at hb2
      subst hb2
      exact hpu.2 ha
    · intro q hq x hx
      have hqmem : q ∈ l1 ∨ q ∈ l2 := by
        rcases (mem_mid q l1 l2 _).1 hq with h1 | h1 | h1
        · exact Or.inl h1
        · subst h1
          simp [pendingB] at hx
        · exact Or.inr h1
      have hold : x ∈ g.visited ∧ x ∉ g.fetchLog := by
        rcases hqmem with h1 | h1
        · exact hC q ((mem_mid q l1 l2 _).2 (Or.inl h1)) x hx
        · exact hC q ((mem_mid q l1 l2 _).2 (Or.inr (Or.inr h1))) x hx
      refine ⟨hold.1, ?_⟩
      intro hxm
      rcases List.mem_append.1 hxm with hxm | hxm
      · exact hold.2 hxm
      · simp only [List.mem_singleton] at hxm
        subst hxm
        have hD2 := hD x
        rw [countP_mid] at hD2
        have hone : (if pendingB x (WPC.counted x) then 1 else 0) = 1 := by
          simp [pendingB]
        rw [hone] at hD2
        have hq0 : l1.countP (pendingB x) = 0 ∧ l2.countP (pendingB x) = 0 := by
          omega
        rcases hqmem with h1 | h1
        · exact (List.countP_eq_zero.1 hq0.1 q h1) hx
        · exact (List.countP_eq_zero.1 hq0.2 q h1) hx
    · intro x
      have hD2 := hD x
      rw [countP_mid] at hD2 ⊢
      simp [pendingB] at hD2 ⊢
      omega
    · rw [countP_mid, List.length_append]
      have hE2 := hE
      rw [countP_mid] at hE2
      simp [isCountedB] at hE2 ⊢
      omega
  | linkStep u l ls =>
    obtain ⟨hA, hB, hC, hD, hE, hF⟩ := h
    refine ⟨?_, ?_, ?_, ?_, ?_, ?_⟩
    · intro x hx
      rw [workerHandleLink_visited]
      rw [workerHandleLink_fetchLog] at hx
      exact hA x hx
    · rw [workerHandleLink_fetchLog]
      exact hB
    · intro q hq x hx
      rw [workerHandleLink_visited, workerHandleLink_fetchLog]
      rcases (mem_mid q l1 l2 _).1 hq with h1 | h1 | h1
      · exact hC q ((mem_mid q l1 l2 _).2 (Or.inl h1)) x hx
      · subst h1
        have hx2 : pendingB x (WPC.processing u (l :: ls)) = true := by
          simpa [pendingB] using hx
        simp [pendingB] at hx2
      · exact hC q ((mem_mid q l1 l2 _).2 (Or.inr (Or.inr h1))) x hx
    · intro x
      have hD2 := hD x
      rw [countP_mid] at hD2 ⊢
      simp [pendingB] at hD2 ⊢
      omega
    · rw [workerHandleLink_fetchLog, workerHandleLink_pageCount, countP_mid]
      have hE2 := hE
      rw [countP_mid] at hE2
      simp [isCountedB] at hE2 ⊢
      omega
    · intro d hd
      rcases workerHandleLink_extDoms base g l d hd with h1 | h1
      · exact hF d h1
      · exact h1
  | linksDone u =>
    exact CInv_swap base maxPages g g l1 l2 (WPC.processing u []) WPC.checkBudget rfl rfl rfl rfl (fun v => rfl) rfl h

theorem countP_replicate_zero (q : WPC → Bool) (n : Nat) (a : WPC) (ha : q a = false) :
    (List.replicate n a).countP q = 0 := by
  induction n with
  | zero => rfl
  | succ k ih =>
    rw [List.replicate_succ, List.countP_cons, ha]
    simpa using ih

theorem initCfg_CInv (base : String) (maxPages : Nat) (u : String) (n : Nat) :
    CInv base maxPages (initCfg u n).g (initCfg u n).pcs := by
  refine ⟨?_, ?_, ?_, ?_, ?_, ?_⟩
  · intro x hx
    simp [initCfg] at hx
  · simp [initCfg]
  · intro q hq x hx
    rcases List.mem_replicate.1 hq with ⟨_, rfl⟩
    simp [pendingB] at hx
  · intro x
    show (List.replicate n WPC.checkBudget).countP (pendingB x) ≤ 1
    rw [countP_replicate_zero _ _ _ (by simp [pendingB])]
    omega
  · show (0 : Nat) + (List.replicate n WPC.checkBudget).countP isCountedB ≤ min 0 maxPages
    rw [countP_replicate_zero _ _ _ (by simp [isCountedB])]
    simp
  · intro d hd
    simp [initCfg] at hd

theorem reach_CInv (f : String → String) (e : String → String → List String)
    (base : String) (maxPages : Nat) (u : String) (n : Nat) (c : Cfg)
    (h : Reach f e base maxPages u n c) : CInv base maxPages c.g c.pcs := by
  induction h with
  | init => exact initCfg_CInv base maxPages u n
  | step c c2 hr hs ih => exact sysStep_CInv f e base maxPages c c2 hs ih

/-! ## Order facts for the report sort -/

theorem domainsLe_iff (a b : String × Nat) :
    domainsLe a b = true ↔ (b.2 < a.2 ∨ (a.2 = b.2 ∧ a.1 ≤ b.1)) := by
  simp [domainsLe]

theorem domainsLe_trans (a b c : String × Nat)
    (h1 : domainsLe a b) (h2 : domainsLe b c) : domainsLe a c := by
  rw [domainsLe_iff] at *
  rcases h1 with h1 | ⟨h1, h1b⟩ <;> rcases h2 with h2 | ⟨h2, h2b⟩
  · exact Or.inl (by omega)
  · exact Or.inl (by omega)
  · exact Or.inl (by omega)
  · exact Or.inr ⟨by omega, le_trans h1b h2b⟩

theorem domainsLe_total (a b : String × Nat) : domainsLe a b || domainsLe b a := by
  rw [Bool.or_eq_true, domainsLe_iff, domainsLe_iff]
  rcases Nat.lt_trichotomy a.2 b.2 with h | h | h
  · exact Or.inr (Or.inl h)
  · rcases le_total a.1 b.1 with hs | hs
    · exact Or.inl (Or.inr ⟨h, hs⟩)
    · exact Or.inr (Or.inr ⟨h.symm, hs⟩)
  · exact Or.inl (Or.inl h)

/-- A complete one-worker run of the threaded crawler on the demo site
with a page budget of one: the seed is claimed, counted and fetched, its
three links are processed (the internal one enqueued, b.test recorded
once, the duplicate occurrence ignored), and the worker halts on the
exhausted budget, leaving the internal link stranded in the global
queue. -/
theorem reach_demoFinal :
    Reach demoFetch demoExtract "a.test" 1 "https://a.test/" 1 demoFinal := by
  have h0 : Reach demoFetch demoExtract "a.test" 1 "https://a.test/" 1
      (initCfg "https://a.test/" 1) := Reach.init
  have h1 : Reach demoFetch demoExtract "a.test" 1 "https://a.test/" 1
      ⟨⟨["https://a.test/"], [], [], 0, []⟩, [WPC.wantUrl]⟩ :=
    Reach.step _ _ h0 (SysStep.mk _ _ _ _ [] [] (WStep.budgetGo _ (by decide)))
  have h2 : Reach demoFetch demoExtract "a.test" 1 "https://a.test/" 1
      ⟨⟨[], [], [], 0, []⟩, [WPC.gotUrl "https://a.test/"]⟩ :=
    Reach.step _ _ h1 (SysStep.mk _ _ _ _ [] []
      (WStep.dequeue _ "https://a.test/" [] rfl))
  have h3 : Reach demoFetch demoExtract "a.test" 1 "https://a.test/" 1
      ⟨⟨[], ["https://a.test/"], [], 0, []⟩, [WPC.claimed "https://a.test/"]⟩ :=
    Reach.step _ _ h2 (SysStep.mk _ _ _ _ [] []
      (WStep.markVisited _ "https://a.test/" (by decide)))
  have h4 : Reach demoFetch demoExtract "a.test" 1 "https://a.test/" 1
      ⟨⟨[], ["https://a.test/"], [], 1, []⟩, [WPC.counted "https://a.test/"]⟩ :=
    Reach.step _ _ h3 (SysStep.mk _ _ _ _ [] []
      (WStep.withinBudget _ "https://a.test/" (by decide)))
  have h5 : Reach demoFetch demoExtract "a.test" 1 "https://a.test/" 1
      ⟨⟨[], ["https://a.test/"], [], 1, ["https://a.test/"]⟩,
       [WPC.processing "https://a.test/"
         ["https://a.test/p2", "https://b.test/x", "https://b.test/y"]]⟩ :=
    Reach.step _ _ h4 (SysStep.mk _ _ _ _ [] []
      (WStep.fetchOk _ "https://a.test/" (by decide)))
  have h6 : Reach demoFetch demoExtract "a.test" 1 "https://a.test/" 1
      ⟨⟨["https://a.test/p2"], ["https://a.test/"], [], 1, ["https://a.test/"]⟩,
       [WPC.processing "https://a.test/" ["https://b.test/x", "https://b.test/y"]]⟩ :=
    Reach.step _ _ h5 (SysStep.mk _ _ _ _ [] []
      (WStep.linkStep _ "https://a.test/" "https://a.test/p2"
        ["https://b.test/x", "https://b.test/y"]))
  have h7 : Reach demoFetch demoExtract "a.test" 1 "https://a.test/" 1
      ⟨⟨["https://a.test/p2"], ["https://a.test/"], ["b.test"], 1, ["https://a.test/"]⟩,
       [WPC.processing "https://a.test/" ["https://b.test/y"]]⟩ :=
    Reach.step _ _ h6 (SysStep.mk _ _ _ _ [] []
      (WStep.linkStep _ "https://a.test/" "https://b.test/x" ["https://b.test/y"]))
  have h8 : Reach demoFetch demoExtract "a.test" 1 "https://a.test/" 1
      ⟨⟨["https://a.test/p2"], ["https://a.test/"], ["b.test"], 1, ["https://a.test/"]⟩,
       [WPC.processing "https://a.test/" []]⟩ :=
    Reach.step _ _ h7 (SysStep.mk _ _ _ _ [] []
      (WStep.linkStep _ "https://a.test/" "https://b.test/y" []))
  have h9 : Reach demoFetch demoExtract "a.test" 1 "https://a.test/" 1
      ⟨⟨["https://a.test/p2"], ["https://a.test/"], ["b.test"], 1, ["https://a.test/"]⟩,
       [WPC.checkBudget]⟩ :=
    Reach.step _ _ h8 (SysStep.mk _ _ _ _ [] []
      (WStep.linksDone _ "https://a.test/"))
  exact Reach.step _ _ h9 (SysStep.mk _ _ _ _ [] []
    (WStep.budgetStop _ (by decide)))

/-! ## The claims -/

/-- C1: within one invocation of crawl_website no URL is passed to
fetch_page twice, whatever the fetch and extraction behaviour.  The
sequential crawl has a duplicate-free fetch log, and in the threaded
crawl every reachable configuration of a pool of any size has a
duplicate-free fetch log; in both variants the membership
check-and-insert on visited_urls (atomic under visited_urls_lock in the
threaded variant) is what the proof rests on. -/
theorem crawl_no_url_fetched_twice :
    (∀ (f : String → String) (e : String → String → List String) (u : String) (m : Nat),
        (crawl_website f e u m).fetchLog.Nodup) ∧
    (∀ (f : String → String) (e : String → String → List String) (base u : String)
        (m n : Nat) (c : Cfg), Reach f e base m u n c → c.g.fetchLog.Nodup) := by
  constructor
  · intro f e u m
    obtain ⟨he, hn, -⟩ := crawl_website_SeqInv f e u m
    rw [he] at hn
    exact hn.of_append_left
  · intro f e base u m n c hr
    exact (reach_CInv f e base m u n c hr).2.1

theorem crawl_no_url_fetched_twice_witness :
    Reach demoFetch demoExtract "a.test" 1 "https://a.test/" 1 demoFinal ∧
    demoFinal.g.fetchLog.Nodup :=
  ⟨reach_demoFinal,
   crawl_no_url_fetched_twice.2 demoFetch demoExtract "a.test" "https://a.test/" 1 1
     demoFinal reach_demoFinal⟩

/-- C2: within one invocation of crawl_website with a positive page
budget, the number of fetch_page calls started never exceeds max_pages:
in the sequential crawl the length of the fetch log is bounded by
max_pages, and in the threaded crawl the fetch log of every reachable
configuration is bounded by max_pages (each fetch is preceded by an
atomic increment that aborts the worker when the grant would exceed the
budget). -/
theorem crawl_fetch_attempts_le_max_pages :
    (∀ (f : String → String) (e : String → String → List String) (u : String) (m : Nat),
        0 < m → (crawl_website f e u m).fetchLog.length ≤ m) ∧
    (∀ (f : String → String) (e : String → String → List String) (base u : String)
        (m n : Nat) (c : Cfg), 0 < m → Reach f e base m u n c →
        c.g.fetchLog.length ≤ m) := by
  constructor
  · intro f e u m _
    obtain ⟨-, -, -, hc, -⟩ := crawl_website_SeqInv f e u m
    have hb : (crawl_website f e u m).pageCount ≤ max 0 m :=
      crawlLoop_pageCount_le f e (get_domain u) m
        ⟨[], [u], [], 0, [], [u]⟩
    rw [hc]
    omega
  · intro f e base u m n c _ hr
    have hE := (reach_CInv f e base m u n c hr).2.2.2.2.1
    omega

theorem crawl_fetch_attempts_le_max_pages_witness :
    ((0 : Nat) < 1 ∧
      (crawl_website demoFetch demoExtract "https://a.test/" 1).fetchLog.length ≤ 1) ∧
    ((0 : Nat) < 1 ∧
      Reach demoFetch demoExtract "a.test" 1 "https://a.test/" 1 demoFinal ∧
      demoFinal.g.fetchLog.length ≤ 1) :=
  ⟨⟨by decide,
    crawl_fetch_attempts_le_max_pages.1 demoFetch demoExtract "https://a.test/" 1
      (by decide)⟩,
   by decide, reach_demoFinal,
   crawl_fetch_attempts_le_max_pages.2 demoFetch demoExtract "a.test" "https://a.test/"
     1 1 demoFinal (by decide) reach_demoFinal⟩

/-- C3: is_internal_link url base is true exactly when the domain of url
equals base or is empty; in particular any URL on the base domain is
internal and any URL without an authority (get_domain empty, covering
relative links) is internal whatever the base.  The function is a pure
Lean function of its two arguments, mirroring the side-effect-free
Python source. -/
theorem is_internal_link_spec :
    (∀ url base, is_internal_link url base = true ↔
        (get_domain url = base ∨ get_domain url = "")) ∧
    (∀ url base, get_domain url = "" → is_internal_link url base = true) ∧
    (∀ url base, get_domain url = base → is_internal_link url base = true) := by
  refine ⟨?_, ?_, ?_⟩
  · intro url base
    simp [is_internal_link]
  · intro url base h
    simp [is_internal_link, h]
  · intro url base h
    simp [is_internal_link, h]

theorem is_internal_link_spec_witness :
    (is_internal_link "https://b.test/x" "a.test" = true ↔
      (get_domain "https://b.test/x" = "a.test" ∨ get_domain "https://b.test/x" = "")) ∧
    (get_domain "/contact" = "" ∧ is_internal_link "/contact" "a.test" = true) ∧
    (get_domain "https://a.test/x" = "a.test" ∧
      is_internal_link "https://a.test/x" "a.test" = true) :=
  ⟨is_internal_link_spec.1 "https://b.test/x" "a.test",
   ⟨by decide, is_internal_link_spec.2.1 "/contact" "a.test" (by decide)⟩,
   ⟨by decide, is_internal_link_spec.2.2 "https://a.test/x" "a.test" (by decide)⟩⟩

/-- C4: a unit of work whose fetch fails (fetch_page returns the empty
string, which is how every transport error, non-2xx status and timeout
surfaces) contributes nothing: the loop state after the failed unit has
the same frontier remainder, the same external Counter and the same
admission log as before it, only the URL itself is marked visited,
counted and logged as fetched, and the crawl goes on with the remaining
frontier items instead of aborting. -/
theorem failed_fetch_unit_is_isolated (f : String → String)
    (e : String → String → List String) (base : String) (maxPages : Nat)
    (visited rest : List String) (ext : List (String × Nat)) (pc : Nat)
    (fl el : List String) (current : String)
    (hb : pc < maxPages) (hv : current ∉ visited) (hf : f current = "") :
    crawlLoop f e base maxPages ⟨visited, current :: rest, ext, pc, fl, el⟩ =
      crawlLoop f e base maxPages
        ⟨current :: visited, rest, ext, pc + 1, fl ++ [current], el⟩ :=
  crawlLoop_eq_fail f e base maxPages ⟨visited, current :: rest, ext, pc, fl, el⟩
    current rest rfl hb hv hf

theorem failed_fetch_unit_is_isolated_witness :
    (0 : Nat) < 3 ∧ "https://a.test/q" ∉ (["https://a.test/"] : List String) ∧
    demoFetch "https://a.test/q" = "" ∧
    crawlLoop demoFetch demoExtract "a.test" 3
        ⟨["https://a.test/"], ["https://a.test/q"], [], 0, [], []⟩ =
      crawlLoop demoFetch demoExtract "a.test" 3
        ⟨["https://a.test/q", "https://a.test/"], [], [], 1, ["https://a.test/q"], []⟩ :=
  ⟨by decide, by decide, by decide,
   failed_fetch_unit_is_isolated demoFetch demoExtract "a.test" 3
     ["https://a.test/"] [] [] 0 [] [] "https://a.test/q"
     (by decide) (by decide) (by decide)⟩

/-- C5 counterexample: the seed ftp://bad is NOT rejected.  urlparse
gives it the nonempty scheme ftp and the nonempty netloc bad, the only
two things main checks, so the run proceeds to crawl instead of being
refused. -/
theorem seed_ftp_bad_passes_validation :
    validateSeed "ftp://bad" = true ∧ urlScheme "ftp://bad" = "ftp" ∧
    get_domain "ftp://bad" = "bad" ∧
    mainModel demoFetch demoExtract "ftp://bad" 1 ≠ none := by
  refine ⟨by decide, by decide, by decide, ?_⟩
  simp +decide [mainModel]

/-- C5 as amended: main refuses the run, before any crawling and hence
before any worker or fetch, exactly for seeds whose parsed scheme or
parsed authority is empty; the scheme value itself is never restricted,
so a seed like ftp://bad (scheme ftp, authority bad) is accepted. -/
theorem seed_validation_spec :
    (∀ url, validateSeed url = false ↔ (urlScheme url = "" ∨ get_domain url = "")) ∧
    (∀ (f : String → String) (e : String → String → List String) (url : String) (m : Nat),
        validateSeed url = false → mainModel f e url m = none) := by
  constructor
  · intro url
    simp [validateSeed]
    tauto
  · intro f e url m h
    simp [mainModel, h]

theorem seed_validation_spec_witness :
    (validateSeed "nodomain" = false ↔
      (urlScheme "nodomain" = "" ∨ get_domain "nodomain" = "")) ∧
    validateSeed "nodomain" = false ∧
    mainModel demoFetch demoExtract "nodomain" 1 = none :=
  ⟨seed_validation_spec.1 "nodomain", by decide,
   seed_validation_spec.2 demoFetch demoExtract "nodomain" 1 (by decide)⟩

/-- C6: on any domain-to-count mapping with distinct keys (which every
Python dict has, and which the crawl Counter is proved to produce), the
report order of save_domains_to_file has distinct domains and is
strictly descending by count with ties broken by strictly ascending
domain name. -/
theorem report_sorted_dedup :
    (∀ (m : List (String × Nat)), (m.map Prod.fst).Nodup →
      ((sortDomains m).map Prod.fst).Nodup ∧
      (sortDomains m).Pairwise (fun a b => b.2 < a.2 ∨ (a.2 = b.2 ∧ a.1 < b.1))) ∧
    (∀ (f : String → String) (e : String → String → List String) (u : String) (mp : Nat),
      ((crawl_website f e u mp).extDoms.map Prod.fst).Nodup) := by
  constructor
  · intro m h
    have hperm : List.Perm (m.mergeSort domainsLe) m := List.mergeSort_perm m domainsLe
    have hkeys : ((sortDomains m).map Prod.fst).Nodup :=
      ((hperm.map Prod.fst).nodup_iff).2 h
    refine ⟨hkeys, ?_⟩
    have hsorted : (sortDomains m).Pairwise (fun a b => domainsLe a b = true) :=
      List.sorted_mergeSort domainsLe_trans domainsLe_total m
    have hne : (sortDomains m).Pairwise (fun a b => a.1 ≠ b.1) :=
      (List.pairwise_map).1 hkeys
    refine (hsorted.and hne).imp ?_
    intro a b hab
    obtain ⟨hle, hne2⟩ := hab
    rw [domainsLe_iff] at hle
    rcases hle with hlt | ⟨heq, hle2⟩
    · exact Or.inl hlt
    · exact Or.inr ⟨heq, lt_of_le_of_ne hle2 hne2⟩
  · intro f e u mp
    exact (crawl_website_SeqInv f e u mp).2.2.2.2.2

theorem report_sorted_dedup_witness :
    (([("b", 2), ("a", 2), ("c", 1)] : List (String × Nat)).map Prod.fst).Nodup ∧
    ((sortDomains [("b", 2), ("a", 2), ("c", 1)]).map Prod.fst).Nodup ∧
    (sortDomains [("b", 2), ("a", 2), ("c", 1)]).Pairwise
      (fun a b => b.2 < a.2 ∨ (a.2 = b.2 ∧ a.1 < b.1)) :=
  ⟨by decide,
   (report_sorted_dedup.1 [("b", 2), ("a", 2), ("c", 1)] (by decide)).1,
   (report_sorted_dedup.1 [("b", 2), ("a", 2), ("c", 1)] (by decide)).2⟩

set_option maxRecDepth 8000 in
/-- C7 counterexample: admission to the frontier does not require
remaining budget.  With max_pages = 1 the seed consumes the whole budget
before its links are processed, yet the internal link found on the seed
page is still admitted: the final state of the run has its page counter
at the budget and the link sitting in the frontier, where the claim says
the proposal should have been dropped. -/
theorem propose_admitted_without_budget :
    (crawl_website demoFetch demoExtract "https://a.test/" 1).pageCount = 1 ∧
    (crawl_website demoFetch demoExtract "https://a.test/" 1).toVisit =
      ["https://a.test/p2"] := by
  constructor <;>
    simp +decide [crawl_website, crawlLoop, processLinks, processLink, counterIncr]

/-- C7 as amended: in the sequential crawler a proposed internal URL is
admitted to the frontier exactly when it is in neither the visited set
nor the frontier (so that frontier never holds duplicates, and
re-proposing an admitted URL is a no-op); the threaded crawler checks
only the visited set, so its queue can hold duplicates of a pending URL;
neither variant consults the page budget when admitting, so links found
on the last in-budget page are still admitted even though they will
never be fetched. -/
theorem propose_internal_spec :
    (∀ (base : String) (s : CrawlState) (l : String),
        is_internal_link l base = true → l ∉ s.visited → l ∉ s.toVisit →
        (processLink base s l).toVisit = s.toVisit ++ [l]) ∧
    (∀ (base : String) (s : CrawlState) (l : String),
        l ∈ s.visited ∨ l ∈ s.toVisit →
        (processLink base s l).toVisit = s.toVisit) ∧
    (∀ (base : String) (s : CrawlState) (l : String),
        is_internal_link l base = true →
        processLink base (processLink base s l) l = processLink base s l) ∧
    (∀ (base : String) (g : GState) (l : String),
        is_internal_link l base = true → l ∉ g.visited →
        (workerHandleLink base g l).queue = g.queue ++ [l]) ∧
    (∀ (base : String) (g : GState) (l : String),
        is_internal_link l base = true → l ∈ g.visited →
        (workerHandleLink base g l).queue = g.queue) := by
  refine ⟨?_, ?_, ?_, ?_, ?_⟩
  · intro base s l hint hv hq
    unfold processLink
    rw [if_pos hint, if_pos ⟨hv, hq⟩]
  · intro base s l hmem
    unfold processLink
    by_cases hint : is_internal_link l base = true
    · rw [if_pos hint, if_neg (by tauto)]
    · rw [if_neg hint]
      show (if get_domain l = "" then s
        else { s with extDoms := counterIncr s.extDoms (get_domain l) }).toVisit = s.toVisit
      split_ifs <;> rfl
  · intro base s l hint
    by_cases hadm : l ∉ s.visited ∧ l ∉ s.toVisit
    · have h1 : processLink base s l =
          { s with toVisit := s.toVisit ++ [l], enqueueLog := s.enqueueLog ++ [l] } := by
        unfold processLink
        rw [if_pos hint, if_pos hadm]
      rw [h1]
      unfold processLink
      rw [if_pos hint, if_neg (by simp)]
    · have h1 : processLink base s l = s := by
        unfold processLink
        rw [if_pos hint, if_neg hadm]
      rw [h1]
      exact h1
  · intro base g l hint hv
    unfold workerHandleLink
    rw [if_pos hint, if_neg hv]
  · intro base g l hint hv
    unfold workerHandleLink
    rw [if_pos hint, if_pos hv]

theorem propose_internal_spec_witness :
    is_internal_link "https://a.test/p2" "a.test" = true ∧
    "https://a.test/p2" ∉ (⟨[], [], [], 1, [], []⟩ : CrawlState).visited ∧
    "https://a.test/p2" ∉ (⟨[], [], [], 1, [], []⟩ : CrawlState).toVisit ∧
    (processLink "a.test" ⟨[], [], [], 1, [], []⟩ "https://a.test/p2").toVisit =
      [] ++ ["https://a.test/p2"] ∧
    (workerHandleLink "a.test" ⟨[], [], [], 1, []⟩ "https://a.test/p2").queue =
      [] ++ ["https://a.test/p2"] :=
  ⟨by decide, by decide, by decide,
   propose_internal_spec.1 "a.test" ⟨[], [], [], 1, [], []⟩ "https://a.test/p2"
     (by decide) (by decide) (by decide),
   propose_internal_spec.2.2.2.1 "a.test" ⟨[], [], [], 1, []⟩ "https://a.test/p2"
     (by decide) (by decide)⟩

/-- C8: in the sequential crawler (the single-worker reference run) the
frontier is a FIFO list, so pages are fetched exactly in the order in
which they were first admitted to the frontier: the fetch log of any run
is an initial segment of its admission log, the leftover being the
pending frontier at termination.  Links discovered on an earlier page
are admitted, hence visited, before links discovered on a later page:
strict breadth-first order from the seed. -/
theorem single_worker_visit_order_is_discovery_order
    (f : String → String) (e : String → String → List String) (u : String) (m : Nat) :
    ∃ t, (crawl_website f e u m).enqueueLog = (crawl_website f e u m).fetchLog ++ t :=
  ⟨(crawl_website f e u m).toVisit, (crawl_website_SeqInv f e u m).1⟩

/-- C9 (code bug): crawl_website in config_scraper.py resets page_count,
visited_urls and external_domains at entry, but never drains the global
url_queue.  A first run that stops on budget exhaustion leaves its
pending URLs queued: demoFinal is such a reachable final configuration,
its queue is nonempty, and the reset-and-seed prelude of a following
invocation enqueues the new seed BEHIND the stale URL, so the second run
does not observe an empty frontier and its result can depend on the
first run. -/
theorem url_queue_not_reset_between_runs :
    Reach demoFetch demoExtract "a.test" 1 "https://a.test/" 1 demoFinal ∧
    demoFinal.g.queue ≠ [] ∧
    (crawlInitGlobals demoFinal.g "https://b.test/").queue =
      ["https://a.test/p2", "https://b.test/"] :=
  ⟨reach_demoFinal, by decide, by decide⟩

/-- C10: every domain in the external result is a nonempty string
different from the base domain derived from the seed: in the sequential
crawl every key of the returned Counter is nonempty and differs from
get_domain of the seed, and in the threaded crawl the external set of
every reachable configuration contains only nonempty domains different
from the base domain. -/
theorem external_result_excludes_base_domain :
    (∀ (f : String → String) (e : String → String → List String) (u : String) (m : Nat),
        ∀ d ∈ (crawl_website f e u m).extDoms.map Prod.fst,
          d ≠ "" ∧ d ≠ get_domain u) ∧
    (∀ (f : String → String) (e : String → String → List String) (base u : String)
        (m n : Nat) (c : Cfg), Reach f e base m u n c →
        ∀ d ∈ c.g.extDoms, d ≠ "" ∧ d ≠ base) := by
  constructor
  · intro f e u m
    exact (crawl_website_SeqInv f e u m).2.2.2.2.1
  · intro f e base u m n c hr
    exact (reach_CInv f e base m u n c hr).2.2.2.2.2

set_option maxRecDepth 8000 in
theorem external_result_excludes_base_domain_witness :
    "b.test" ∈ (crawl_website demoFetch demoExtract "https://a.test/" 1).extDoms.map
      Prod.fst ∧
    ("b.test" ≠ "" ∧ "b.test" ≠ get_domain "https://a.test/") ∧
    Reach demoFetch demoExtract "a.test" 1 "https://a.test/" 1 demoFinal ∧
    "b.test" ∈ demoFinal.g.extDoms ∧
    ("b.test" ≠ "" ∧ "b.test" ≠ "a.test") := by
  have hmem : "b.test" ∈
      (crawl_website demoFetch demoExtract "https://a.test/" 1).extDoms.map Prod.fst := by
    simp +decide [crawl_website, crawlLoop, processLinks, processLink, counterIncr]
  exact ⟨hmem,
    external_result_excludes_base_domain.1 demoFetch demoExtract "https://a.test/" 1
      "b.test" hmem,
    reach_demoFinal, by decide,
    external_result_excludes_base_domain.2 demoFetch demoExtract "a.test"
      "https://a.test/" 1 1 demoFinal reach_demoFinal "b.test" (by decide)⟩
